import Mathlib

/-!
Verification development for the DANRIT-READER crawler (`src/scraper.ts`).

The repository ships the crawler in two near-duplicate revisions of the same
file.  Both revisions contain `crawlUrl` (a FIFO frontier loop over a visited
set with `maxPages` / `maxDepth` / soft queue-cap bounds) and `filterLinks`
(a link scope filter).  The two `filterLinks` revisions differ: the first
rejects `.png`/`.jpg`/`.pdf`/`.zip` on the lowercased resolved path and
inserts the absolute URL; the second inserts `origin + pathname` with a
trailing slash removed and rejects only `.png`/`.jpg`/`.pdf` on that
normalized string.

`scrapeUrl` (browser automation, content extraction) is the external fetcher
collaborator: the crawler only consumes it through the contract
"url in, optional record with links out", and `scrapeUrl` always returns the
requested url in its `url` field.  It is modelled by an oracle
`fetch : String → Option (List String)` giving the page's extracted links on
success and `none` on failure.

The WHATWG `URL` library is modelled by `parseUrlData` below, restricted to
hierarchical `scheme://host…` URLs: scheme detection, authority splitting
(userinfo, host, decimal port), path/query/fragment splitting, and relative
resolution against a base.  Percent-encoding, dot-segment removal, host case
normalization, default-port stripping and opaque-scheme (`mailto:`-style)
URLs are not modelled; opaque-scheme inputs are treated as parse failures.
All string work happens on `List Char` by structural recursion so that every
definition reduces in the kernel.
-/

namespace DanritReader

/-- `startsWithC s pre` is `true` when the character list `s` begins with `pre`
(the model of JavaScript `String.prototype.startsWith`). -/
def startsWithC : List Char → List Char → Bool
  | _, [] => true
  | [], _ :: _ => false
  | c :: cs, p :: ps => (c == p) && startsWithC cs ps

/-- `endsWithC s suf` is `true` when `s` ends with `suf`
(the model of JavaScript `String.prototype.endsWith`). -/
def endsWithC (s suf : List Char) : Bool :=
  startsWithC s.reverse suf.reverse

/-- Characters allowed inside a URL scheme after the leading letter. -/
def validSchemeChar (c : Char) : Bool :=
  c.isAlpha || c.isDigit || c == '+' || c == '-' || c == '.'

/-- A URL scheme: a letter followed by letters, digits, `+`, `-` or `.`. -/
def validScheme : List Char → Bool
  | [] => false
  | c :: cs => c.isAlpha && cs.all validSchemeChar

/-- Split a candidate URL at its first `:` into scheme and remainder, when the
part before the colon is a valid scheme. -/
def schemeSplit (s : List Char) : Option (List Char × List Char) :=
  match s.dropWhile (· ≠ ':') with
  | ':' :: r => if validScheme (s.takeWhile (· ≠ ':')) then some (s.takeWhile (· ≠ ':'), r) else none
  | _ => none

/-- Characters that may appear in the authority component (everything up to
the first `/`, `?` or `#`). -/
def authChar (c : Char) : Bool :=
  c ≠ '/' && c ≠ '?' && c ≠ '#'

/-- Drop the userinfo part of an authority: keep the characters after the last
`@`. -/
def afterLastAt (l : List Char) : List Char :=
  (l.reverse.takeWhile (· ≠ '@')).reverse

/-- Split the part of a URL after the authority into pathname, search and
hash; an empty path serializes as `/` for hierarchical URLs. -/
def splitPathQueryFrag (rem : List Char) : List Char × List Char × List Char :=
  let beforeFrag := rem.takeWhile (· ≠ '#')
  let path0 := beforeFrag.takeWhile (· ≠ '?')
  (if path0 = [] then ['/'] else path0, beforeFrag.dropWhile (· ≠ '?'), rem.dropWhile (· ≠ '#'))

/-- A parsed hierarchical URL: the components the scraper reads through the
WHATWG `URL` object (`protocol`, `hostname`, `port`, `pathname`, `search`,
`hash`).  `port` is either `[]` or `':'` followed by digits. -/
structure Url where
  scheme : List Char
  host : List Char
  port : List Char
  path : List Char
  query : List Char
  fragment : List Char
deriving DecidableEq

/-- Serialization of a parsed URL (`URL.prototype.href`), as characters. -/
def Url.hrefData (u : Url) : List Char :=
  u.scheme ++ [':', '/', '/'] ++ u.host ++ u.port ++ u.path ++ u.query ++ u.fragment

/-- `URL.prototype.href` as a string. -/
def Url.href (u : Url) : String :=
  ⟨u.hrefData⟩

/-- `URL.prototype.origin` for hierarchical URLs: scheme, `://`, host, port. -/
def Url.originData (u : Url) : List Char :=
  u.scheme ++ [':', '/', '/'] ++ u.host ++ u.port

/-- Parse the part of an absolute hierarchical URL after `scheme://`:
authority (userinfo dropped, host split from a decimal port), then
path, query and fragment. -/
def parseHier (sch : List Char) (rest : List Char) : Option Url :=
  let auth := rest.takeWhile authChar
  let hostport := afterLastAt auth
  let host := hostport.takeWhile (· ≠ ':')
  let portRaw := hostport.dropWhile (· ≠ ':')
  if host = [] then none
  else
    let port := if portRaw = [':'] then [] else portRaw
    if port ≠ [] ∧ ¬ (port.drop 1).all Char.isDigit then none
    else
      let pqf := splitPathQueryFrag (rest.dropWhile authChar)
      some ⟨sch, host, port, pqf.1, pqf.2.1, pqf.2.2⟩

/-- `dirOf p` is the prefix of path `p` up to and including its last `/`:
the directory against which a relative link is resolved. -/
def dirOf (p : List Char) : List Char :=
  (p.reverse.dropWhile (· ≠ '/')).reverse

/-- Model of the WHATWG URL parser on character lists, as used by
`new URL(href)` / `new URL(href, base)` in the scraper: absolute
`scheme://…` inputs are parsed outright, other inputs are resolved against
the base (protocol-relative `//…`, root-relative `/…`, query-only `?…`,
fragment-only `#…`, and relative path forms).  Returns `none` where the
library constructor throws, and also for the unmodelled opaque-scheme
inputs. -/
def parseUrlData (href : List Char) (base : Option Url) : Option Url :=
  match schemeSplit href with
  | some (sch, rest) =>
      if startsWithC rest ['/', '/'] then parseHier sch (rest.drop 2) else none
  | none =>
    match base with
    | none => none
    | some b =>
      if href = [] then some { b with fragment := [] }
      else if startsWithC href ['/', '/'] then parseHier b.scheme (href.drop 2)
      else if startsWithC href ['/'] then
        let pqf := splitPathQueryFrag href
        some ⟨b.scheme, b.host, b.port, pqf.1, pqf.2.1, pqf.2.2⟩
      else if startsWithC href ['?'] then
        some ⟨b.scheme, b.host, b.port, b.path, href.takeWhile (· ≠ '#'), href.dropWhile (· ≠ '#')⟩
      else if startsWithC href ['#'] then some { b with fragment := href }
      else
        let beforeFrag := href.takeWhile (· ≠ '#')
        some ⟨b.scheme, b.host, b.port, dirOf b.path ++ beforeFrag.takeWhile (· ≠ '?'),
          beforeFrag.dropWhile (· ≠ '?'), href.dropWhile (· ≠ '#')⟩

/-- `new URL(href, currentUrl)` with a string base: the base string is parsed
first and a failure there throws before the input is looked at. -/
def parseWithBase (href currentUrl : List Char) : Option Url :=
  match parseUrlData currentUrl none with
  | none => none
  | some b => parseUrlData href (some b)

/-- `hostname.replace(/^www\./, '')`. -/
def stripWww (s : List Char) : List Char :=
  if startsWithC s ['w', 'w', 'w', '.'] then s.drop 4 else s

/-- `pathname.replace(/\/$/, '')`: drop one trailing slash. -/
def stripTrailingSlash (p : List Char) : List Char :=
  if p.getLast? = some '/' then p.dropLast else p

/-- Insertion into a JavaScript `Set` read back with `Array.from`: insertion
order, duplicates ignored. -/
def insertUnique (acc : List String) (u : String) : List String :=
  if u ∈ acc then acc else acc ++ [u]

/-- First-revision `filterLinks` (`scraper.ts`, revision 1): skip empty /
fragment / `mailto:` / `javascript:` links, resolve against the current page
URL, keep links on the base domain (`www.` stripped on both sides) or — when
`allowSubdomains` — on a subdomain, reject lowercased paths ending in
`.png`/`.jpg`/`.pdf`/`.zip`, and collect the absolute URLs into an
insertion-ordered set. -/
def filterLinks (rawLinks : List String) (currentUrl : String) (baseDomain : String)
    (allowSubdomains : Bool) : List String :=
  let normalizedBase := stripWww baseDomain.data
  rawLinks.foldl (fun acc href =>
    if href.data = [] ∨ startsWithC href.data ['#']
        ∨ startsWithC href.data "mailto:".data ∨ startsWithC href.data "javascript:".data then
      acc
    else
      match parseWithBase href.data currentUrl.data with
      | none => acc
      | some u1 =>
        let absoluteUrl := u1.hrefData
        match parseUrlData absoluteUrl none with
        | none => acc
        | some urlObj =>
          let currentHost := stripWww urlObj.host
          let isSameDomain := currentHost = normalizedBase
          let isSubdomain := endsWithC urlObj.host ('.' :: normalizedBase)
          if isSameDomain ∨ (allowSubdomains ∧ isSubdomain = true) then
            let path := urlObj.path.map Char.toLower
            if ¬ endsWithC path ".png".data = true ∧ ¬ endsWithC path ".jpg".data = true
                ∧ ¬ endsWithC path ".pdf".data = true ∧ ¬ endsWithC path ".zip".data = true then
              insertUnique acc ⟨absoluteUrl⟩
            else acc
          else acc) []

/-- The second revision's URL normalization before dedup:
`urlObj.origin + urlObj.pathname.replace(/\/$/, '')`. -/
def normalizeUrl2 (u : Url) : List Char :=
  u.originData ++ stripTrailingSlash u.path

/-- Second-revision `filterLinks` (`scraper.ts`, revision 2): same skip and
scope rules as revision 1, but each accepted link is normalized to
`origin + pathname` with the trailing slash removed (dropping query and
fragment), and only `.png`/`.jpg`/`.pdf` endings are rejected, checked on the
normalized string. -/
def filterLinks2 (rawLinks : List String) (currentUrl : String) (baseDomain : String)
    (allowSubdomains : Bool) : List String :=
  let normalizedBase := stripWww baseDomain.data
  rawLinks.foldl (fun acc href =>
    if href.data = [] ∨ startsWithC href.data ['#']
        ∨ startsWithC href.data "mailto:".data ∨ startsWithC href.data "javascript:".data then
      acc
    else
      match parseWithBase href.data currentUrl.data with
      | none => acc
      | some u1 =>
        let absoluteUrl := u1.hrefData
        match parseUrlData absoluteUrl none with
        | none => acc
        | some urlObj =>
          let currentHost := stripWww urlObj.host
          let isSameDomain := currentHost = normalizedBase
          let isSubdomain := endsWithC urlObj.host ('.' :: normalizedBase)
          if isSameDomain ∨ (allowSubdomains ∧ isSubdomain = true) then
            let normalized := normalizeUrl2 urlObj
            if ¬ endsWithC normalized ".png".data = true ∧ ¬ endsWithC normalized ".jpg".data = true
                ∧ ¬ endsWithC normalized ".pdf".data = true then
              insertUnique acc ⟨normalized⟩
            else acc
          else acc) []

/-- A frontier entry `{url, depth}`. -/
structure FrontierEntry where
  url : String
  depth : Nat
deriving DecidableEq

/-- The part of the fetcher's `ScrapeResult` the crawler reads: the requested
`url` (which `scrapeUrl` always echoes back) and the extracted `links`.
The remaining fields (title, markdown content, …) are opaque payload. -/
structure PageResult where
  url : String
  links : List String
deriving DecidableEq

/-- Crawl statistics.  The wall-clock `duration` field is not modelled. -/
structure CrawlStats where
  pagesScraped : Nat
  linksDiscovered : Nat
deriving DecidableEq

/-- The crawler's return value. -/
structure CrawlResult where
  pages : List PageResult
  stats : CrawlStats
deriving DecidableEq

/-- `CrawlOptions`; a `none` field means the option was not supplied and the
default applies (`maxPages` 10, `maxDepth` 2, `allowSubdomains` false).
`render` and `screenshot` are forwarded verbatim to the fetcher and are
absorbed into the fetch oracle. -/
structure CrawlOptions where
  maxPages : Option Nat
  maxDepth : Option Nat
  render : Option Bool
  screenshot : Option Bool
  allowSubdomains : Option Bool
deriving DecidableEq

/-- The loop state of `crawlUrl`.  `visited`, `queue`, `results` and
`linksDiscovered` are the source's variables; `pageDepths` (the depth at
which each element of `results` was fetched) and `fetchedLog` (every URL the
fetcher was invoked on, in order) are ghost fields recording history for the
statements below — they influence nothing. -/
structure CrawlState where
  visited : List String
  queue : List FrontierEntry
  results : List PageResult
  pageDepths : List Nat
  fetchedLog : List String
  linksDiscovered : Nat
deriving DecidableEq

/-- The enqueue loop at the end of a page expansion:
`for (const link of filteredLinks) if (!visited.has(link) && results.length + queue.length < maxPages * 2) queue.push(...)`. -/
def enqueueLinks (links : List String) (visited : List String) (queue : List FrontierEntry)
    (resLen maxPages depth : Nat) : List FrontierEntry :=
  links.foldl (fun q link =>
    if link ∉ visited ∧ resLen + q.length < maxPages * 2 then q ++ [⟨link, depth⟩] else q) queue

/-- The `while (queue.length > 0 && results.length < maxPages)` loop of
`crawlUrl`, parameterized by the link filter (the two revisions differ only
there) and by the fetch oracle.  `fuel` bounds the number of iterations; see
`crawlFuel`. -/
def crawlLoop (filter : List String → String → String → Bool → List String)
    (fetch : String → Option (List String)) (maxPages maxDepth : Nat)
    (startDomain : String) (allowSubdomains : Bool) (fuel : Nat) (s : CrawlState) : CrawlState :=
  match fuel with
  | 0 => s
  | fuel' + 1 =>
    if s.results.length < maxPages then
      match s.queue with
      | [] => s
      | cur :: rest =>
        if cur.url ∈ s.visited ∨ maxDepth < cur.depth then
          crawlLoop filter fetch maxPages maxDepth startDomain allowSubdomains fuel'
            { s with queue := rest }
        else
          match fetch cur.url with
          | none =>
            crawlLoop filter fetch maxPages maxDepth startDomain allowSubdomains fuel'
              ⟨cur.url :: s.visited, rest, s.results, s.pageDepths,
                s.fetchedLog ++ [cur.url], s.linksDiscovered⟩
          | some links =>
            if maxDepth ≤ cur.depth then
              crawlLoop filter fetch maxPages maxDepth startDomain allowSubdomains fuel'
                ⟨cur.url :: s.visited, rest, s.results ++ [⟨cur.url, links⟩],
                  s.pageDepths ++ [cur.depth], s.fetchedLog ++ [cur.url], s.linksDiscovered⟩
            else
              crawlLoop filter fetch maxPages maxDepth startDomain allowSubdomains fuel'
                ⟨cur.url :: s.visited,
                  enqueueLinks (filter links cur.url startDomain allowSubdomains)
                    (cur.url :: s.visited) rest (s.results ++ [(⟨cur.url, links⟩ : PageResult)]).length maxPages
                    (cur.depth + 1),
                  s.results ++ [⟨cur.url, links⟩], s.pageDepths ++ [cur.depth],
                  s.fetchedLog ++ [cur.url],
                  s.linksDiscovered + (filter links cur.url startDomain allowSubdomains).length⟩
    else s

/-- An upper bound on the number of loop iterations: every iteration pops one
entry; entries are pushed only in the at-most-`maxPages` successful
expansions, each pushing fewer than `2·maxPages` entries under the soft cap,
so the seed plus all pushes stay below `2·maxPages² + maxPages + 2`.  The
source loop therefore always exhausts its queue or its page budget within
this fuel. -/
def crawlFuel (maxPages : Nat) : Nat :=
  2 * maxPages * maxPages + maxPages + 2

/-- First-revision `crawlUrl`: resolve defaults, derive the base domain from
the start URL (a parse failure there aborts the crawl before any fetch), run
the frontier loop seeded with `{url: startUrl, depth: 0}`, and assemble the
result. -/
def crawlUrl (fetch : String → Option (List String)) (startUrl : String)
    (options : CrawlOptions) : Option CrawlResult :=
  let maxPages := options.maxPages.getD 10
  let maxDepth := options.maxDepth.getD 2
  let allowSubdomains := options.allowSubdomains.getD false
  match parseUrlData startUrl.data none with
  | none => none
  | some u =>
    let fin := crawlLoop filterLinks fetch maxPages maxDepth (String.mk u.host) allowSubdomains
      (crawlFuel maxPages) ⟨[], [⟨startUrl, 0⟩], [], [], [], 0⟩
    some ⟨fin.results, ⟨fin.results.length, fin.linksDiscovered⟩⟩

/-- Second-revision `crawlUrl`: identical loop, but links are filtered with
the second revision's `filterLinks`. -/
def crawlUrl2 (fetch : String → Option (List String)) (startUrl : String)
    (options : CrawlOptions) : Option CrawlResult :=
  let maxPages := options.maxPages.getD 10
  let maxDepth := options.maxDepth.getD 2
  let allowSubdomains := options.allowSubdomains.getD false
  match parseUrlData startUrl.data none with
  | none => none
  | some u =>
    let fin := crawlLoop filterLinks2 fetch maxPages maxDepth (String.mk u.host) allowSubdomains
      (crawlFuel maxPages) ⟨[], [⟨startUrl, 0⟩], [], [], [], 0⟩
    some ⟨fin.results, ⟨fin.results.length, fin.linksDiscovered⟩⟩

end DanritReader
namespace DanritReader

theorem crawlLoop_zero (F : List String → String → String → Bool → List String)
    (fetch : String → Option (List String)) (mp md : Nat) (dom : String) (sub : Bool)
    (s : CrawlState) : crawlLoop F fetch mp md dom sub 0 s = s := rfl

theorem crawlLoop_stop (F : List String → String → String → Bool → List String)
    (fetch : String → Option (List String)) (mp md : Nat) (dom : String) (sub : Bool)
    (fuel : Nat) (s : CrawlState) (hf : 0 < fuel) (hg : ¬ s.results.length < mp) :
    crawlLoop F fetch mp md dom sub fuel s = s := by
  obtain ⟨k, rfl⟩ : ∃ k, fuel = k + 1 := ⟨fuel - 1, by omega⟩
  unfold crawlLoop
  simp [hg]

theorem crawlLoop_empty (F : List String → String → String → Bool → List String)
    (fetch : String → Option (List String)) (mp md : Nat) (dom : String) (sub : Bool)
    (fuel : Nat) (s : CrawlState) (hf : 0 < fuel) (hq : s.queue = []) :
    crawlLoop F fetch mp md dom sub fuel s = s := by
  obtain ⟨k, rfl⟩ : ∃ k, fuel = k + 1 := ⟨fuel - 1, by omega⟩
  unfold crawlLoop
  simp [hq]

theorem crawlLoop_skip (F : List String → String → String → Bool → List String)
    (fetch : String → Option (List String)) (mp md : Nat) (dom : String) (sub : Bool)
    (fuel : Nat) (s : CrawlState) (cur : FrontierEntry) (rest : List FrontierEntry)
    (hf : 0 < fuel) (hq : s.queue = cur :: rest) (hg : s.results.length < mp)
    (hcur : cur.url ∈ s.visited ∨ md < cur.depth) :
    crawlLoop F fetch mp md dom sub fuel s
      = crawlLoop F fetch mp md dom sub (fuel - 1) { s with queue := rest } := by
  obtain ⟨k, rfl⟩ : ∃ k, fuel = k + 1 := ⟨fuel - 1, by omega⟩
  conv_lhs => rw [crawlLoop]
  simp [hq, hg, hcur]

theorem crawlLoop_fail (F : List String → String → String → Bool → List String)
    (fetch : String → Option (List String)) (mp md : Nat) (dom : String) (sub : Bool)
    (fuel : Nat) (s : CrawlState) (cur : FrontierEntry) (rest : List FrontierEntry)
    (hf : 0 < fuel) (hq : s.queue = cur :: rest) (hg : s.results.length < mp)
    (hcv : cur.url ∉ s.visited) (hcd : ¬ md < cur.depth) (hfe : fetch cur.url = none) :
    crawlLoop F fetch mp md dom sub fuel s
      = crawlLoop F fetch mp md dom sub (fuel - 1)
          ⟨cur.url :: s.visited, rest, s.results, s.pageDepths,
            s.fetchedLog ++ [cur.url], s.linksDiscovered⟩ := by
  obtain ⟨k, rfl⟩ : ∃ k, fuel = k + 1 := ⟨fuel - 1, by omega⟩
  conv_lhs => rw [crawlLoop]
  simp [hq, hg, hcv, hcd, hfe]

theorem crawlLoop_atMax (F : List String → String → String → Bool → List String)
    (fetch : String → Option (List String)) (mp md : Nat) (dom : String) (sub : Bool)
    (fuel : Nat) (s : CrawlState) (cur : FrontierEntry) (rest : List FrontierEntry)
    (links : List String)
    (hf : 0 < fuel) (hq : s.queue = cur :: rest) (hg : s.results.length < mp)
    (hcv : cur.url ∉ s.visited) (hcd : ¬ md < cur.depth) (hfe : fetch cur.url = some links)
    (hd : md ≤ cur.depth) :
    crawlLoop F fetch mp md dom sub fuel s
      = crawlLoop F fetch mp md dom sub (fuel - 1)
          ⟨cur.url :: s.visited, rest, s.results ++ [⟨cur.url, links⟩],
            s.pageDepths ++ [cur.depth], s.fetchedLog ++ [cur.url], s.linksDiscovered⟩ := by
  obtain ⟨k, rfl⟩ : ∃ k, fuel = k + 1 := ⟨fuel - 1, by omega⟩
  conv_lhs => rw [crawlLoop]
  simp [hq, hg, hcv, hcd, hfe, hd]

theorem crawlLoop_expand (F : List String → String → String → Bool → List String)
    (fetch : String → Option (List String)) (mp md : Nat) (dom : String) (sub : Bool)
    (fuel : Nat) (s : CrawlState) (cur : FrontierEntry) (rest : List FrontierEntry)
    (links : List String)
    (hf : 0 < fuel) (hq : s.queue = cur :: rest) (hg : s.results.length < mp)
    (hcv : cur.url ∉ s.visited) (hcd : ¬ md < cur.depth) (hfe : fetch cur.url = some links)
    (hd : ¬ md ≤ cur.depth) :
    crawlLoop F fetch mp md dom sub fuel s
      = crawlLoop F fetch mp md dom sub (fuel - 1)
          ⟨cur.url :: s.visited,
            enqueueLinks (F links cur.url dom sub) (cur.url :: s.visited) rest
              (s.results ++ [(⟨cur.url, links⟩ : PageResult)]).length mp (cur.depth + 1),
            s.results ++ [⟨cur.url, links⟩], s.pageDepths ++ [cur.depth],
            s.fetchedLog ++ [cur.url], s.linksDiscovered + (F links cur.url dom sub).length⟩ := by
  obtain ⟨k, rfl⟩ : ∃ k, fuel = k + 1 := ⟨fuel - 1, by omega⟩
  conv_lhs => rw [crawlLoop]
  simp [hq, hg, hcv, hcd, hfe, hd]


/-- Every property preserved by the four kinds of loop iteration holds of the
loop's final state. -/
theorem crawlLoop_preserve (F : List String → String → String → Bool → List String)
    (fetch : String → Option (List String)) (mp md : Nat) (dom : String) (sub : Bool)
    (P : CrawlState → Prop)
    (hskip : ∀ v q res pd fl ld cur, res.length < mp →
      (cur.url ∈ v ∨ md < cur.depth) →
      P ⟨v, cur :: q, res, pd, fl, ld⟩ → P ⟨v, q, res, pd, fl, ld⟩)
    (hfail : ∀ v q res pd fl ld cur, res.length < mp →
      cur.url ∉ v → ¬ md < cur.depth → fetch cur.url = none →
      P ⟨v, cur :: q, res, pd, fl, ld⟩ →
      P ⟨cur.url :: v, q, res, pd, fl ++ [cur.url], ld⟩)
    (hmax : ∀ v q res pd fl ld cur links, res.length < mp →
      cur.url ∉ v → ¬ md < cur.depth → fetch cur.url = some links → md ≤ cur.depth →
      P ⟨v, cur :: q, res, pd, fl, ld⟩ →
      P ⟨cur.url :: v, q, res ++ [⟨cur.url, links⟩], pd ++ [cur.depth], fl ++ [cur.url], ld⟩)
    (hexp : ∀ v q res pd fl ld cur links, res.length < mp →
      cur.url ∉ v → ¬ md < cur.depth → fetch cur.url = some links → ¬ md ≤ cur.depth →
      P ⟨v, cur :: q, res, pd, fl, ld⟩ →
      P ⟨cur.url :: v,
          enqueueLinks (F links cur.url dom sub) (cur.url :: v) q
            (res ++ [(⟨cur.url, links⟩ : PageResult)]).length mp (cur.depth + 1),
          res ++ [⟨cur.url, links⟩], pd ++ [cur.depth], fl ++ [cur.url],
          ld + (F links cur.url dom sub).length⟩) :
    ∀ fuel s, P s → P (crawlLoop F fetch mp md dom sub fuel s) := by
  intro fuel
  induction fuel with
  | zero => intro s hs; exact hs
  | succ k ih =>
    intro s hs
    by_cases hg : s.results.length < mp
    · match hq : s.queue with
      | [] =>
        rw [crawlLoop_empty F fetch mp md dom sub (k + 1) s (by omega) hq]
        exact hs
      | cur :: rest =>
        by_cases hcur : cur.url ∈ s.visited ∨ md < cur.depth
        · rw [crawlLoop_skip F fetch mp md dom sub (k + 1) s cur rest (by omega) hq hg hcur]
          simp only [Nat.add_sub_cancel]
          obtain ⟨v, q, res, pd, fl, ld⟩ := s
          cases hq
          exact ih _ (hskip v rest res pd fl ld cur hg hcur hs)
        · rw [not_or] at hcur
          obtain ⟨hcv, hcd⟩ := hcur
          cases hfe : fetch cur.url with
          | none =>
            rw [crawlLoop_fail F fetch mp md dom sub (k + 1) s cur rest (by omega) hq hg hcv hcd hfe]
            simp only [Nat.add_sub_cancel]
            obtain ⟨v, q, res, pd, fl, ld⟩ := s
            cases hq
            exact ih _ (hfail v rest res pd fl ld cur hg hcv hcd hfe hs)
          | some links =>
            by_cases hd : md ≤ cur.depth
            · rw [crawlLoop_atMax F fetch mp md dom sub (k + 1) s cur rest links (by omega) hq hg hcv hcd hfe hd]
              simp only [Nat.add_sub_cancel]
              obtain ⟨v, q, res, pd, fl, ld⟩ := s
              cases hq
              exact ih _ (hmax v rest res pd fl ld cur links hg hcv hcd hfe hd hs)
            · rw [crawlLoop_expand F fetch mp md dom sub (k + 1) s cur rest links (by omega) hq hg hcv hcd hfe hd]
              simp only [Nat.add_sub_cancel]
              obtain ⟨v, q, res, pd, fl, ld⟩ := s
              cases hq
              exact ih _ (hexp v rest res pd fl ld cur links hg hcv hcd hfe hd hs)
    · rw [crawlLoop_stop F fetch mp md dom sub (k + 1) s (by omega) hg]
      exact hs


theorem crawlFuel_pos (mp : Nat) : 0 < crawlFuel mp := by
  unfold crawlFuel
  omega

theorem crawlFuel_sub_one_pos (mp : Nat) : 0 < crawlFuel mp - 1 := by
  unfold crawlFuel
  omega

/-- `crawlUrl` on a parsable start URL is the assembled final loop state. -/
theorem crawlUrl_eq (fetch : String → Option (List String)) (startUrl : String)
    (options : CrawlOptions) (u : Url) (hp : parseUrlData startUrl.data none = some u) :
    crawlUrl fetch startUrl options
      = some ⟨(crawlLoop filterLinks fetch (options.maxPages.getD 10) (options.maxDepth.getD 2)
            (String.mk u.host) (options.allowSubdomains.getD false)
            (crawlFuel (options.maxPages.getD 10)) ⟨[], [⟨startUrl, 0⟩], [], [], [], 0⟩).results,
          ⟨(crawlLoop filterLinks fetch (options.maxPages.getD 10) (options.maxDepth.getD 2)
            (String.mk u.host) (options.allowSubdomains.getD false)
            (crawlFuel (options.maxPages.getD 10)) ⟨[], [⟨startUrl, 0⟩], [], [], [], 0⟩).results.length,
          (crawlLoop filterLinks fetch (options.maxPages.getD 10) (options.maxDepth.getD 2)
            (String.mk u.host) (options.allowSubdomains.getD false)
            (crawlFuel (options.maxPages.getD 10)) ⟨[], [⟨startUrl, 0⟩], [], [], [], 0⟩).linksDiscovered⟩⟩ := by
  unfold crawlUrl
  rw [hp]

/-- `crawlUrl` on an unparsable start URL aborts before any fetch. -/
theorem crawlUrl_none (fetch : String → Option (List String)) (startUrl : String)
    (options : CrawlOptions) (hp : parseUrlData startUrl.data none = none) :
    crawlUrl fetch startUrl options = none := by
  unfold crawlUrl
  rw [hp]

/-- `crawlUrl2` on a parsable start URL is the assembled final loop state. -/
theorem crawlUrl2_eq (fetch : String → Option (List String)) (startUrl : String)
    (options : CrawlOptions) (u : Url) (hp : parseUrlData startUrl.data none = some u) :
    crawlUrl2 fetch startUrl options
      = some ⟨(crawlLoop filterLinks2 fetch (options.maxPages.getD 10) (options.maxDepth.getD 2)
            (String.mk u.host) (options.allowSubdomains.getD false)
            (crawlFuel (options.maxPages.getD 10)) ⟨[], [⟨startUrl, 0⟩], [], [], [], 0⟩).results,
          ⟨(crawlLoop filterLinks2 fetch (options.maxPages.getD 10) (options.maxDepth.getD 2)
            (String.mk u.host) (options.allowSubdomains.getD false)
            (crawlFuel (options.maxPages.getD 10)) ⟨[], [⟨startUrl, 0⟩], [], [], [], 0⟩).results.length,
          (crawlLoop filterLinks2 fetch (options.maxPages.getD 10) (options.maxDepth.getD 2)
            (String.mk u.host) (options.allowSubdomains.getD false)
            (crawlFuel (options.maxPages.getD 10)) ⟨[], [⟨startUrl, 0⟩], [], [], [], 0⟩).linksDiscovered⟩⟩ := by
  unfold crawlUrl2
  rw [hp]

/-- `crawlUrl2` on an unparsable start URL aborts before any fetch. -/
theorem crawlUrl2_none (fetch : String → Option (List String)) (startUrl : String)
    (options : CrawlOptions) (hp : parseUrlData startUrl.data none = none) :
    crawlUrl2 fetch startUrl options = none := by
  unfold crawlUrl2
  rw [hp]

/-- Elements of the queue produced by the enqueue loop either were already
queued or are unvisited filtered links queued at the child depth. -/
theorem enqueueLinks_mem (links : List String) (vis : List String) (q : List FrontierEntry)
    (rl mp d : Nat) (e : FrontierEntry) (he : e ∈ enqueueLinks links vis q rl mp d) :
    e ∈ q ∨ (e.url ∈ links ∧ e.url ∉ vis ∧ e.depth = d) := by
  induction links generalizing q with
  | nil => exact Or.inl he
  | cons l ls ih =>
    rw [enqueueLinks, List.foldl_cons] at he
    rcases ih _ he with h | h
    · by_cases hc : l ∉ vis ∧ rl + q.length < mp * 2
      · rw [if_pos hc] at h
        rcases List.mem_append.mp h with h | h
        · exact Or.inl h
        · rcases List.mem_singleton.mp h with rfl
          exact Or.inr ⟨List.mem_cons_self _ _, hc.1, rfl⟩
      · rw [if_neg hc] at h
        exact Or.inl h
    · exact Or.inr ⟨List.mem_cons_of_mem _ h.1, h.2.1, h.2.2⟩

/-- The enqueue loop respects the soft cap: it never pushes once
`results.length + queue.length` reaches `2 × maxPages`. -/
theorem enqueueLinks_cap (links : List String) (vis : List String) (q : List FrontierEntry)
    (rl mp d : Nat) (h : rl + q.length ≤ 2 * mp) :
    rl + (enqueueLinks links vis q rl mp d).length ≤ 2 * mp := by
  induction links generalizing q with
  | nil => exact h
  | cons l ls ih =>
    rw [enqueueLinks, List.foldl_cons]
    by_cases hc : l ∉ vis ∧ rl + q.length < mp * 2
    · rw [if_pos hc]
      exact ih _ (by simp; omega)
    · rw [if_neg hc]
      exact ih _ h

/-- The loop never lets `results` grow past `maxPages`. -/
theorem crawlLoop_results_le (F : List String → String → String → Bool → List String)
    (fetch : String → Option (List String)) (mp md : Nat) (dom : String) (sub : Bool)
    (fuel : Nat) (s : CrawlState) (h : s.results.length ≤ mp) :
    (crawlLoop F fetch mp md dom sub fuel s).results.length ≤ mp := by
  refine crawlLoop_preserve F fetch mp md dom sub (fun t => t.results.length ≤ mp)
    ?_ ?_ ?_ ?_ fuel s h
  · intro v q res pd fl ld cur _ _ hP
    exact hP
  · intro v q res pd fl ld cur _ _ _ _ hP
    exact hP
  · intro v q res pd fl ld cur links hg _ _ _ _ _
    simp only [List.length_append, List.length_singleton]
    omega
  · intro v q res pd fl ld cur links hg _ _ _ _ _
    simp only [List.length_append, List.length_singleton]
    omega


/-- The loop preserves "result URLs are distinct and all visited". -/
theorem crawlLoop_results_nodup (F : List String → String → String → Bool → List String)
    (fetch : String → Option (List String)) (mp md : Nat) (dom : String) (sub : Bool)
    (fuel : Nat) (s : CrawlState) (h1 : (s.results.map PageResult.url).Nodup)
    (h2 : ∀ r ∈ s.results, r.url ∈ s.visited) :
    ((crawlLoop F fetch mp md dom sub fuel s).results.map PageResult.url).Nodup := by
  have main := crawlLoop_preserve F fetch mp md dom sub
    (fun t => (t.results.map PageResult.url).Nodup ∧ ∀ r ∈ t.results, r.url ∈ t.visited)
    ?_ ?_ ?_ ?_ fuel s ⟨h1, h2⟩
  · exact main.1
  · intro v q res pd fl ld cur _ _ hP
    exact hP
  · intro v q res pd fl ld cur _ _ _ _ hP
    refine ⟨hP.1, fun r hr => List.mem_cons_of_mem _ (hP.2 r hr)⟩
  · intro v q res pd fl ld cur links _ hcv _ _ _ hP
    refine ⟨?_, ?_⟩
    · rw [List.map_append]
      rw [List.nodup_append]
      refine ⟨hP.1, by simp, ?_⟩
      intro a ha
      simp only [List.map_cons, List.map_nil, List.mem_singleton]
      intro hb
      rcases List.mem_map.mp ha with ⟨r, hr, rfl⟩
      exact hcv (hb ▸ hP.2 r hr)
    · intro r hr
      rcases List.mem_append.mp hr with hr | hr
      · exact List.mem_cons_of_mem _ (hP.2 r hr)
      · rcases List.mem_singleton.mp hr with rfl
        exact List.mem_cons_self _ _
  · intro v q res pd fl ld cur links _ hcv _ _ _ hP
    refine ⟨?_, ?_⟩
    · rw [List.map_append]
      rw [List.nodup_append]
      refine ⟨hP.1, by simp, ?_⟩
      intro a ha
      simp only [List.map_cons, List.map_nil, List.mem_singleton]
      intro hb
      rcases List.mem_map.mp ha with ⟨r, hr, rfl⟩
      exact hcv (hb ▸ hP.2 r hr)
    · intro r hr
      rcases List.mem_append.mp hr with hr | hr
      · exact List.mem_cons_of_mem _ (hP.2 r hr)
      · rcases List.mem_singleton.mp hr with rfl
        exact List.mem_cons_self _ _

/-- The loop preserves "the fetch log is duplicate-free and inside visited":
no URL is ever handed to the fetcher twice. -/
theorem crawlLoop_fetchedLog_nodup (F : List String → String → String → Bool → List String)
    (fetch : String → Option (List String)) (mp md : Nat) (dom : String) (sub : Bool)
    (fuel : Nat) (s : CrawlState) (h1 : s.fetchedLog.Nodup)
    (h2 : ∀ x ∈ s.fetchedLog, x ∈ s.visited) :
    (crawlLoop F fetch mp md dom sub fuel s).fetchedLog.Nodup := by
  have main := crawlLoop_preserve F fetch mp md dom sub
    (fun t => t.fetchedLog.Nodup ∧ ∀ x ∈ t.fetchedLog, x ∈ t.visited)
    ?_ ?_ ?_ ?_ fuel s ⟨h1, h2⟩
  · exact main.1
  · intro v q res pd fl ld cur _ _ hP
    exact hP
  · intro v q res pd fl ld cur _ hcv _ _ hP
    refine ⟨?_, ?_⟩
    · rw [List.nodup_append]
      refine ⟨hP.1, by simp, ?_⟩
      intro a ha
      simp only [List.mem_singleton]
      intro hb
      exact hcv (hb ▸ hP.2 a ha)
    · intro x hx
      rcases List.mem_append.mp hx with hx | hx
      · exact List.mem_cons_of_mem _ (hP.2 x hx)
      · rcases List.mem_singleton.mp hx with rfl
        exact List.mem_cons_self _ _
  · intro v q res pd fl ld cur links _ hcv _ _ _ hP
    refine ⟨?_, ?_⟩
    · rw [List.nodup_append]
      refine ⟨hP.1, by simp, ?_⟩
      intro a ha
      simp only [List.mem_singleton]
      intro hb
      exact hcv (hb ▸ hP.2 a ha)
    · intro x hx
      rcases List.mem_append.mp hx with hx | hx
      · exact List.mem_cons_of_mem _ (hP.2 x hx)
      · rcases List.mem_singleton.mp hx with rfl
        exact List.mem_cons_self _ _
  · intro v q res pd fl ld cur links _ hcv _ _ _ hP
    refine ⟨?_, ?_⟩
    · rw [List.nodup_append]
      refine ⟨hP.1, by simp, ?_⟩
      intro a ha
      simp only [List.mem_singleton]
      intro hb
      exact hcv (hb ▸ hP.2 a ha)
    · intro x hx
      rcases List.mem_append.mp hx with hx | hx
      · exact List.mem_cons_of_mem _ (hP.2 x hx)
      · rcases List.mem_singleton.mp hx with rfl
        exact List.mem_cons_self _ _

/-- The loop preserves the soft cap `|results| + |queue| ≤ 2·maxPages`. -/
theorem crawlLoop_soft_cap (F : List String → String → String → Bool → List String)
    (fetch : String → Option (List String)) (mp md : Nat) (dom : String) (sub : Bool)
    (fuel : Nat) (s : CrawlState) (h : s.results.length + s.queue.length ≤ 2 * mp) :
    (crawlLoop F fetch mp md dom sub fuel s).results.length
      + (crawlLoop F fetch mp md dom sub fuel s).queue.length ≤ 2 * mp := by
  refine crawlLoop_preserve F fetch mp md dom sub
    (fun t => t.results.length + t.queue.length ≤ 2 * mp) ?_ ?_ ?_ ?_ fuel s h
  · intro v q res pd fl ld cur _ _ hP
    simp only [List.length_cons] at hP ⊢
    omega
  · intro v q res pd fl ld cur _ _ _ _ hP
    simp only [List.length_cons] at hP ⊢
    omega
  · intro v q res pd fl ld cur links _ _ _ _ _ hP
    simp only [List.length_cons, List.length_append, List.length_singleton, List.length_nil] at hP ⊢
    omega
  · intro v q res pd fl ld cur links _ _ _ _ _ hP
    exact enqueueLinks_cap (F links cur.url dom sub) (cur.url :: v) q
      (res ++ [(⟨cur.url, links⟩ : PageResult)]).length mp (cur.depth + 1)
      (by
        simp only [List.length_cons] at hP
        simp only [List.length_append, List.length_singleton]
        omega)


/-- The filtered-link count a page contributes to `linksDiscovered`: the size
of its filtered link set when it was expanded (pages fetched at `maxDepth`
are never expanded and contribute nothing). -/
def expansionSum (F : List String → String → String → Bool → List String) (md : Nat)
    (dom : String) (sub : Bool) : List PageResult → List Nat → Nat
  | [], _ => 0
  | _ :: _, [] => 0
  | p :: ps, d :: ds =>
      (if d < md then (F p.links p.url dom sub).length else 0) + expansionSum F md dom sub ps ds

theorem expansionSum_append (F : List String → String → String → Bool → List String) (md : Nat)
    (dom : String) (sub : Bool) (ps : List PageResult) (ds : List Nat) (p : PageResult) (d : Nat)
    (h : ps.length = ds.length) :
    expansionSum F md dom sub (ps ++ [p]) (ds ++ [d])
      = expansionSum F md dom sub ps ds
        + (if d < md then (F p.links p.url dom sub).length else 0) := by
  induction ps generalizing ds with
  | nil =>
    cases ds with
    | nil => simp [expansionSum]
    | cons e es => simp at h
  | cons q qs ih =>
    cases ds with
    | nil => simp at h
    | cons e es =>
      simp only [List.length_cons] at h
      simp only [List.cons_append, expansionSum, List.append_eq]
      rw [ih es (by omega)]
      omega

/-- The loop preserves "`linksDiscovered` is the expansion sum of the pages
fetched so far, at their recorded depths". -/
theorem crawlLoop_stats (F : List String → String → String → Bool → List String)
    (fetch : String → Option (List String)) (mp md : Nat) (dom : String) (sub : Bool)
    (fuel : Nat) (s : CrawlState) (h1 : s.pageDepths.length = s.results.length)
    (h2 : s.linksDiscovered = expansionSum F md dom sub s.results s.pageDepths) :
    (crawlLoop F fetch mp md dom sub fuel s).pageDepths.length
        = (crawlLoop F fetch mp md dom sub fuel s).results.length
      ∧ (crawlLoop F fetch mp md dom sub fuel s).linksDiscovered
        = expansionSum F md dom sub (crawlLoop F fetch mp md dom sub fuel s).results
            (crawlLoop F fetch mp md dom sub fuel s).pageDepths := by
  refine crawlLoop_preserve F fetch mp md dom sub
    (fun t => t.pageDepths.length = t.results.length
      ∧ t.linksDiscovered = expansionSum F md dom sub t.results t.pageDepths)
    ?_ ?_ ?_ ?_ fuel s ⟨h1, h2⟩
  · intro v q res pd fl ld cur _ _ hP
    exact hP
  · intro v q res pd fl ld cur _ _ _ _ hP
    exact hP
  · intro v q res pd fl ld cur links _ _ hcd _ hd hP
    dsimp only at hP ⊢
    refine ⟨by simp [hP.1], ?_⟩
    rw [expansionSum_append F md dom sub res pd _ _ hP.1.symm]
    rw [if_neg (by omega)]
    simpa using hP.2
  · intro v q res pd fl ld cur links _ _ _ _ hd hP
    dsimp only at hP ⊢
    refine ⟨by simp [hP.1], ?_⟩
    rw [expansionSum_append F md dom sub res pd _ _ hP.1.symm]
    rw [if_pos (by omega)]
    dsimp only
    rw [hP.2]


/-- C1: in both crawler revisions, for every fetch oracle, start URL and
options, the pages list of a returned `CrawlResult` never exceeds the
configured `maxPages` bound, however many links are discovered or queued. -/
theorem c1_pages_never_exceed_maxPages :
    (∀ fetch startUrl options r, crawlUrl fetch startUrl options = some r →
      r.pages.length ≤ options.maxPages.getD 10) ∧
    (∀ fetch startUrl options r, crawlUrl2 fetch startUrl options = some r →
      r.pages.length ≤ options.maxPages.getD 10) := by
  constructor
  · intro fetch startUrl options r h
    cases hp : parseUrlData startUrl.data none with
    | none =>
      rw [crawlUrl_none fetch startUrl options hp] at h
      cases h
    | some u =>
      rw [crawlUrl_eq fetch startUrl options u hp] at h
      have hr := Option.some.inj h
      subst hr
      exact crawlLoop_results_le filterLinks fetch (options.maxPages.getD 10)
        (options.maxDepth.getD 2) (String.mk u.host) (options.allowSubdomains.getD false)
        (crawlFuel (options.maxPages.getD 10)) ⟨[], [⟨startUrl, 0⟩], [], [], [], 0⟩ (by simp)
  · intro fetch startUrl options r h
    cases hp : parseUrlData startUrl.data none with
    | none =>
      rw [crawlUrl2_none fetch startUrl options hp] at h
      cases h
    | some u =>
      rw [crawlUrl2_eq fetch startUrl options u hp] at h
      have hr := Option.some.inj h
      subst hr
      exact crawlLoop_results_le filterLinks2 fetch (options.maxPages.getD 10)
        (options.maxDepth.getD 2) (String.mk u.host) (options.allowSubdomains.getD false)
        (crawlFuel (options.maxPages.getD 10)) ⟨[], [⟨startUrl, 0⟩], [], [], [], 0⟩ (by simp)

/-- A fetch oracle always succeeding with a linkless page. -/
def emptyFetch : String → Option (List String) :=
  fun _ => some []

/-- A request with no options supplied; all defaults apply. -/
def optsDefault : CrawlOptions :=
  ⟨none, none, none, none, none⟩

theorem c1_pages_never_exceed_maxPages_witness :
    crawlUrl emptyFetch "https://example.com/" optsDefault
        = some ⟨[⟨"https://example.com/", []⟩], ⟨1, 0⟩⟩
      ∧ (⟨[⟨"https://example.com/", []⟩], ⟨1, 0⟩⟩ : CrawlResult).pages.length
          ≤ optsDefault.maxPages.getD 10 :=
  ⟨by decide, c1_pages_never_exceed_maxPages.1 emptyFetch "https://example.com/" optsDefault
    ⟨[⟨"https://example.com/", []⟩], ⟨1, 0⟩⟩ (by decide)⟩


/-- C4: in both crawler revisions the `url` fields of the returned pages are
pairwise distinct, and — since a URL joins `visited` before its fetch and a
later dequeue of a visited URL is discarded — the loop's fetch log stays
duplicate-free: no URL string is ever fetched twice. -/
theorem c4_page_urls_pairwise_distinct :
    (∀ fetch startUrl options r, crawlUrl fetch startUrl options = some r →
      (r.pages.map PageResult.url).Nodup) ∧
    (∀ fetch startUrl options r, crawlUrl2 fetch startUrl options = some r →
      (r.pages.map PageResult.url).Nodup) ∧
    (∀ (F : List String → String → String → Bool → List String)
        (fetch : String → Option (List String)) (mp md : Nat) (dom : String) (sub : Bool)
        (fuel : Nat) (s : CrawlState), s.fetchedLog.Nodup →
      (∀ x ∈ s.fetchedLog, x ∈ s.visited) →
      (crawlLoop F fetch mp md dom sub fuel s).fetchedLog.Nodup) := by
  refine ⟨?_, ?_, crawlLoop_fetchedLog_nodup⟩
  · intro fetch startUrl options r h
    cases hp : parseUrlData startUrl.data none with
    | none =>
      rw [crawlUrl_none fetch startUrl options hp] at h
      cases h
    | some u =>
      rw [crawlUrl_eq fetch startUrl options u hp] at h
      have hr := Option.some.inj h
      subst hr
      exact crawlLoop_results_nodup filterLinks fetch (options.maxPages.getD 10)
        (options.maxDepth.getD 2) (String.mk u.host) (options.allowSubdomains.getD false)
        (crawlFuel (options.maxPages.getD 10)) ⟨[], [⟨startUrl, 0⟩], [], [], [], 0⟩
        (by simp) (by simp)
  · intro fetch startUrl options r h
    cases hp : parseUrlData startUrl.data none with
    | none =>
      rw [crawlUrl2_none fetch startUrl options hp] at h
      cases h
    | some u =>
      rw [crawlUrl2_eq fetch startUrl options u hp] at h
      have hr := Option.some.inj h
      subst hr
      exact crawlLoop_results_nodup filterLinks2 fetch (options.maxPages.getD 10)
        (options.maxDepth.getD 2) (String.mk u.host) (options.allowSubdomains.getD false)
        (crawlFuel (options.maxPages.getD 10)) ⟨[], [⟨startUrl, 0⟩], [], [], [], 0⟩
        (by simp) (by simp)

theorem c4_page_urls_pairwise_distinct_witness :
    crawlUrl emptyFetch "https://example.com/" optsDefault
        = some ⟨[⟨"https://example.com/", []⟩], ⟨1, 0⟩⟩
      ∧ ((⟨[⟨"https://example.com/", []⟩], ⟨1, 0⟩⟩ : CrawlResult).pages.map
          PageResult.url).Nodup :=
  ⟨by decide, c4_page_urls_pairwise_distinct.1 emptyFetch "https://example.com/" optsDefault
    ⟨[⟨"https://example.com/", []⟩], ⟨1, 0⟩⟩ (by decide)⟩

/-- C7: the enqueue loop creates a frontier entry only for a filtered link
not already visited, only while `|results| + |queue| < 2·maxPages`, and so
keeps `|results| + |queue|` within `2·maxPages`; the crawl loop preserves
that soft cap at every step. -/
theorem c7_enqueue_guard_and_soft_cap :
    (∀ links vis q rl mp d e, e ∈ enqueueLinks links vis q rl mp d →
      e ∈ q ∨ (e.url ∈ links ∧ e.url ∉ vis ∧ e.depth = d)) ∧
    (∀ links vis q rl mp d, rl + q.length ≤ 2 * mp →
      rl + (enqueueLinks links vis q rl mp d).length ≤ 2 * mp) ∧
    (∀ (F : List String → String → String → Bool → List String)
        (fetch : String → Option (List String)) (mp md : Nat) (dom : String) (sub : Bool)
        (fuel : Nat) (s : CrawlState),
      s.results.length + s.queue.length ≤ 2 * mp →
      (crawlLoop F fetch mp md dom sub fuel s).results.length
        + (crawlLoop F fetch mp md dom sub fuel s).queue.length ≤ 2 * mp) :=
  ⟨enqueueLinks_mem, enqueueLinks_cap, crawlLoop_soft_cap⟩

theorem c7_enqueue_guard_and_soft_cap_witness :
    0 + (enqueueLinks ["https://example.com/x"] [] [] 0 3 1).length ≤ 2 * 3 :=
  c7_enqueue_guard_and_soft_cap.2.1 ["https://example.com/x"] [] [] 0 3 1 (by decide)

/-- C9: with `maxPages = 0` the loop guard fails before the seeded start
entry is dequeued: both revisions return an empty result, and the loop's
fetch log stays empty — the fetcher is never invoked. -/
theorem c9_maxPages_zero_no_fetch :
    ∀ (fetch : String → Option (List String)) (startUrl : String) (options : CrawlOptions)
      (u : Url), parseUrlData startUrl.data none = some u → options.maxPages = some 0 →
      crawlUrl fetch startUrl options = some ⟨[], ⟨0, 0⟩⟩ ∧
      crawlUrl2 fetch startUrl options = some ⟨[], ⟨0, 0⟩⟩ ∧
      (crawlLoop filterLinks fetch 0 (options.maxDepth.getD 2) (String.mk u.host)
        (options.allowSubdomains.getD false) (crawlFuel 0)
        ⟨[], [⟨startUrl, 0⟩], [], [], [], 0⟩).fetchedLog = [] := by
  intro fetch startUrl options u hp hmp
  have h1 : options.maxPages.getD 10 = 0 := by rw [hmp]; rfl
  have hs := crawlLoop_stop filterLinks fetch 0 (options.maxDepth.getD 2) (String.mk u.host)
    (options.allowSubdomains.getD false) (crawlFuel 0) ⟨[], [⟨startUrl, 0⟩], [], [], [], 0⟩
    (crawlFuel_pos 0) (by simp)
  have hs2 := crawlLoop_stop filterLinks2 fetch 0 (options.maxDepth.getD 2) (String.mk u.host)
    (options.allowSubdomains.getD false) (crawlFuel 0) ⟨[], [⟨startUrl, 0⟩], [], [], [], 0⟩
    (crawlFuel_pos 0) (by simp)
  refine ⟨?_, ?_, ?_⟩
  · rw [crawlUrl_eq fetch startUrl options u hp, h1, hs]
    rfl
  · rw [crawlUrl2_eq fetch startUrl options u hp, h1, hs2]
    rfl
  · rw [hs]

theorem c9_maxPages_zero_no_fetch_witness :
    crawlUrl emptyFetch "https://example.com/" ⟨some 0, none, none, none, none⟩
        = some ⟨[], ⟨0, 0⟩⟩
      ∧ crawlUrl2 emptyFetch "https://example.com/" ⟨some 0, none, none, none, none⟩
        = some ⟨[], ⟨0, 0⟩⟩ := by
  have h := c9_maxPages_zero_no_fetch emptyFetch "https://example.com/"
    ⟨some 0, none, none, none, none⟩
    ⟨"https".data, "example.com".data, [], ['/'], [], []⟩ (by decide) rfl
  exact ⟨h.1, h.2.1⟩


/-- C2: a page dequeued at depth exactly `maxDepth` is fetched and counted,
but the loop moves on with the remaining queue untouched — its links are
never filtered or enqueued and `linksDiscovered` is unchanged; consequently,
in both revisions, a crawl with `maxDepth = 0` whose start fetch succeeds
returns exactly the start page, whatever links it contains. -/
theorem c2_maxDepth_boundary_no_expansion :
    (∀ (F : List String → String → String → Bool → List String)
        (fetch : String → Option (List String)) (mp md : Nat) (dom : String) (sub : Bool)
        (fuel : Nat) (s : CrawlState) (cur : FrontierEntry) (rest : List FrontierEntry)
        (links : List String),
      0 < fuel → s.queue = cur :: rest → s.results.length < mp →
      cur.url ∉ s.visited → cur.depth = md → fetch cur.url = some links →
      crawlLoop F fetch mp md dom sub fuel s
        = crawlLoop F fetch mp md dom sub (fuel - 1)
            ⟨cur.url :: s.visited, rest, s.results ++ [⟨cur.url, links⟩],
              s.pageDepths ++ [cur.depth], s.fetchedLog ++ [cur.url], s.linksDiscovered⟩) ∧
    (∀ (fetch : String → Option (List String)) (startUrl : String) (links : List String)
        (u : Url), parseUrlData startUrl.data none = some u → fetch startUrl = some links →
      crawlUrl fetch startUrl ⟨none, some 0, none, none, none⟩
        = some ⟨[⟨startUrl, links⟩], ⟨1, 0⟩⟩) ∧
    (∀ (fetch : String → Option (List String)) (startUrl : String) (links : List String)
        (u : Url), parseUrlData startUrl.data none = some u → fetch startUrl = some links →
      crawlUrl2 fetch startUrl ⟨none, some 0, none, none, none⟩
        = some ⟨[⟨startUrl, links⟩], ⟨1, 0⟩⟩) := by
  refine ⟨?_, ?_, ?_⟩
  · intro F fetch mp md dom sub fuel s cur rest links hf hq hg hcv hdep hfe
    exact crawlLoop_atMax F fetch mp md dom sub fuel s cur rest links hf hq hg hcv
      (by omega) hfe (by omega)
  · intro fetch startUrl links u hp hfe
    rw [crawlUrl_eq fetch startUrl ⟨none, some 0, none, none, none⟩ u hp]
    have step1 := crawlLoop_atMax filterLinks fetch 10 0 (String.mk u.host) false
      (crawlFuel 10) ⟨[], [⟨startUrl, 0⟩], [], [], [], 0⟩ ⟨startUrl, 0⟩ [] links
      (crawlFuel_pos 10) rfl (by simp) (by simp) (by simp) hfe (by simp)
    have step2 := crawlLoop_empty filterLinks fetch 10 0 (String.mk u.host) false
      (crawlFuel 10 - 1) ⟨[startUrl], [], [⟨startUrl, links⟩], [0], [startUrl], 0⟩
      (crawlFuel_sub_one_pos 10) rfl
    show some _ = _
    rw [show (⟨none, some 0, none, none, none⟩ : CrawlOptions).maxPages.getD 10 = 10 from rfl,
      show (⟨none, some 0, none, none, none⟩ : CrawlOptions).maxDepth.getD 2 = 0 from rfl,
      show (⟨none, some 0, none, none, none⟩ : CrawlOptions).allowSubdomains.getD false
        = false from rfl]
    rw [step1]
    simp only [List.nil_append]
    rw [step2]
    rfl
  · intro fetch startUrl links u hp hfe
    rw [crawlUrl2_eq fetch startUrl ⟨none, some 0, none, none, none⟩ u hp]
    have step1 := crawlLoop_atMax filterLinks2 fetch 10 0 (String.mk u.host) false
      (crawlFuel 10) ⟨[], [⟨startUrl, 0⟩], [], [], [], 0⟩ ⟨startUrl, 0⟩ [] links
      (crawlFuel_pos 10) rfl (by simp) (by simp) (by simp) hfe (by simp)
    have step2 := crawlLoop_empty filterLinks2 fetch 10 0 (String.mk u.host) false
      (crawlFuel 10 - 1) ⟨[startUrl], [], [⟨startUrl, links⟩], [0], [startUrl], 0⟩
      (crawlFuel_sub_one_pos 10) rfl
    show some _ = _
    rw [show (⟨none, some 0, none, none, none⟩ : CrawlOptions).maxPages.getD 10 = 10 from rfl,
      show (⟨none, some 0, none, none, none⟩ : CrawlOptions).maxDepth.getD 2 = 0 from rfl,
      show (⟨none, some 0, none, none, none⟩ : CrawlOptions).allowSubdomains.getD false
        = false from rfl]
    rw [step1]
    simp only [List.nil_append]
    rw [step2]
    rfl

theorem c2_maxDepth_boundary_no_expansion_witness :
    crawlUrl emptyFetch "https://example.com/" ⟨none, some 0, none, none, none⟩
      = some ⟨[⟨"https://example.com/", []⟩], ⟨1, 0⟩⟩ :=
  c2_maxDepth_boundary_no_expansion.2.1 emptyFetch "https://example.com/" []
    ⟨"https".data, "example.com".data, [], ['/'], [], []⟩ (by decide) rfl


/-- The links of the example start page of the graceful-failure scenario. -/
def exampleLinks : List String :=
  ["https://example.com/a", "https://example.com/b", "https://example.com/c",
    "https://example.com/d"]

/-- A fetch oracle for the graceful-failure scenario: the start page links to
four children and the fetch of the second queued URL (`/a`) fails. -/
def exampleFetch : String → Option (List String) :=
  fun url =>
    if url = "https://example.com/a" then none
    else if url = "https://example.com/" then some exampleLinks
    else some []

/-- C5: a fetcher failure on a dequeued URL just records the URL and moves on
with the remaining queue — the failed page is absent from `pages`, the crawl
is not aborted, and `pagesScraped` counts the successfully fetched pages; in
the concrete five-URL scenario where the second queued URL fails, both
revisions return the other four pages with `pagesScraped = 4`. -/
theorem c5_fetch_failure_never_aborts :
    (∀ (F : List String → String → String → Bool → List String)
        (fetch : String → Option (List String)) (mp md : Nat) (dom : String) (sub : Bool)
        (fuel : Nat) (s : CrawlState) (cur : FrontierEntry) (rest : List FrontierEntry),
      0 < fuel → s.queue = cur :: rest → s.results.length < mp →
      cur.url ∉ s.visited → ¬ md < cur.depth → fetch cur.url = none →
      crawlLoop F fetch mp md dom sub fuel s
        = crawlLoop F fetch mp md dom sub (fuel - 1)
            ⟨cur.url :: s.visited, rest, s.results, s.pageDepths,
              s.fetchedLog ++ [cur.url], s.linksDiscovered⟩) ∧
    (∀ fetch startUrl options r, crawlUrl fetch startUrl options = some r →
      r.stats.pagesScraped = r.pages.length) ∧
    (∀ fetch startUrl options r, crawlUrl2 fetch startUrl options = some r →
      r.stats.pagesScraped = r.pages.length) ∧
    crawlUrl exampleFetch "https://example.com/" optsDefault
      = some ⟨[⟨"https://example.com/", exampleLinks⟩, ⟨"https://example.com/b", []⟩,
          ⟨"https://example.com/c", []⟩, ⟨"https://example.com/d", []⟩], ⟨4, 4⟩⟩ ∧
    crawlUrl2 exampleFetch "https://example.com/" optsDefault
      = some ⟨[⟨"https://example.com/", exampleLinks⟩, ⟨"https://example.com/b", []⟩,
          ⟨"https://example.com/c", []⟩, ⟨"https://example.com/d", []⟩], ⟨4, 4⟩⟩ := by
  refine ⟨crawlLoop_fail, ?_, ?_, by decide, by decide⟩
  · intro fetch startUrl options r h
    cases hp : parseUrlData startUrl.data none with
    | none =>
      rw [crawlUrl_none fetch startUrl options hp] at h
      cases h
    | some u =>
      rw [crawlUrl_eq fetch startUrl options u hp] at h
      have hr := Option.some.inj h
      subst hr
      rfl
  · intro fetch startUrl options r h
    cases hp : parseUrlData startUrl.data none with
    | none =>
      rw [crawlUrl2_none fetch startUrl options hp] at h
      cases h
    | some u =>
      rw [crawlUrl2_eq fetch startUrl options u hp] at h
      have hr := Option.some.inj h
      subst hr
      rfl

theorem c5_fetch_failure_never_aborts_witness :
    crawlUrl exampleFetch "https://example.com/" optsDefault
        = some ⟨[⟨"https://example.com/", exampleLinks⟩, ⟨"https://example.com/b", []⟩,
            ⟨"https://example.com/c", []⟩, ⟨"https://example.com/d", []⟩], ⟨4, 4⟩⟩
      ∧ (⟨[⟨"https://example.com/", exampleLinks⟩, ⟨"https://example.com/b", []⟩,
            ⟨"https://example.com/c", []⟩, ⟨"https://example.com/d", []⟩],
          ⟨4, 4⟩⟩ : CrawlResult).stats.pagesScraped
        = (⟨[⟨"https://example.com/", exampleLinks⟩, ⟨"https://example.com/b", []⟩,
            ⟨"https://example.com/c", []⟩, ⟨"https://example.com/d", []⟩],
          ⟨4, 4⟩⟩ : CrawlResult).pages.length :=
  ⟨by decide, c5_fetch_failure_never_aborts.2.1 exampleFetch "https://example.com/" optsDefault
    ⟨[⟨"https://example.com/", exampleLinks⟩, ⟨"https://example.com/b", []⟩,
      ⟨"https://example.com/c", []⟩, ⟨"https://example.com/d", []⟩], ⟨4, 4⟩⟩ (by decide)⟩


/-- C8: in both revisions, `pagesScraped` equals the number of returned
pages, the returned pages are exactly the final loop state's results, and
`linksDiscovered` equals the expansion sum of those pages at the loop
state's recorded fetch depths (`pageDepths`, the ghost log of the depth at
which each page was fetched): each page fetched strictly below `maxDepth`
contributes its filtered link-set size and pages at `maxDepth` contribute
nothing; the filter is pure, so recomputing it on the stored page equals the
set size at expansion time. -/
theorem c8_stats_consistency :
    (∀ (fetch : String → Option (List String)) (startUrl : String) (options : CrawlOptions)
        (r : CrawlResult) (u : Url), parseUrlData startUrl.data none = some u →
      crawlUrl fetch startUrl options = some r →
      r.stats.pagesScraped = r.pages.length
      ∧ r.pages = (crawlLoop filterLinks fetch (options.maxPages.getD 10)
            (options.maxDepth.getD 2) (String.mk u.host) (options.allowSubdomains.getD false)
            (crawlFuel (options.maxPages.getD 10)) ⟨[], [⟨startUrl, 0⟩], [], [], [], 0⟩).results
      ∧ (crawlLoop filterLinks fetch (options.maxPages.getD 10)
            (options.maxDepth.getD 2) (String.mk u.host) (options.allowSubdomains.getD false)
            (crawlFuel (options.maxPages.getD 10))
            ⟨[], [⟨startUrl, 0⟩], [], [], [], 0⟩).pageDepths.length = r.pages.length
      ∧ r.stats.linksDiscovered
        = expansionSum filterLinks (options.maxDepth.getD 2) (String.mk u.host)
            (options.allowSubdomains.getD false) r.pages
            (crawlLoop filterLinks fetch (options.maxPages.getD 10)
              (options.maxDepth.getD 2) (String.mk u.host) (options.allowSubdomains.getD false)
              (crawlFuel (options.maxPages.getD 10))
              ⟨[], [⟨startUrl, 0⟩], [], [], [], 0⟩).pageDepths) ∧
    (∀ (fetch : String → Option (List String)) (startUrl : String) (options : CrawlOptions)
        (r : CrawlResult) (u : Url), parseUrlData startUrl.data none = some u →
      crawlUrl2 fetch startUrl options = some r →
      r.stats.pagesScraped = r.pages.length
      ∧ r.pages = (crawlLoop filterLinks2 fetch (options.maxPages.getD 10)
            (options.maxDepth.getD 2) (String.mk u.host) (options.allowSubdomains.getD false)
            (crawlFuel (options.maxPages.getD 10)) ⟨[], [⟨startUrl, 0⟩], [], [], [], 0⟩).results
      ∧ (crawlLoop filterLinks2 fetch (options.maxPages.getD 10)
            (options.maxDepth.getD 2) (String.mk u.host) (options.allowSubdomains.getD false)
            (crawlFuel (options.maxPages.getD 10))
            ⟨[], [⟨startUrl, 0⟩], [], [], [], 0⟩).pageDepths.length = r.pages.length
      ∧ r.stats.linksDiscovered
        = expansionSum filterLinks2 (options.maxDepth.getD 2) (String.mk u.host)
            (options.allowSubdomains.getD false) r.pages
            (crawlLoop filterLinks2 fetch (options.maxPages.getD 10)
              (options.maxDepth.getD 2) (String.mk u.host) (options.allowSubdomains.getD false)
              (crawlFuel (options.maxPages.getD 10))
              ⟨[], [⟨startUrl, 0⟩], [], [], [], 0⟩).pageDepths) := by
  constructor
  · intro fetch startUrl options r u hp h
    rw [crawlUrl_eq fetch startUrl options u hp] at h
    have hr := Option.some.inj h
    subst hr
    have hstats := crawlLoop_stats filterLinks fetch (options.maxPages.getD 10)
      (options.maxDepth.getD 2) (String.mk u.host) (options.allowSubdomains.getD false)
      (crawlFuel (options.maxPages.getD 10)) ⟨[], [⟨startUrl, 0⟩], [], [], [], 0⟩ rfl rfl
    exact ⟨rfl, rfl, hstats.1, hstats.2⟩
  · intro fetch startUrl options r u hp h
    rw [crawlUrl2_eq fetch startUrl options u hp] at h
    have hr := Option.some.inj h
    subst hr
    have hstats := crawlLoop_stats filterLinks2 fetch (options.maxPages.getD 10)
      (options.maxDepth.getD 2) (String.mk u.host) (options.allowSubdomains.getD false)
      (crawlFuel (options.maxPages.getD 10)) ⟨[], [⟨startUrl, 0⟩], [], [], [], 0⟩ rfl rfl
    exact ⟨rfl, rfl, hstats.1, hstats.2⟩

theorem c8_stats_consistency_witness :
    (⟨[⟨"https://example.com/", exampleLinks⟩, ⟨"https://example.com/b", []⟩,
        ⟨"https://example.com/c", []⟩, ⟨"https://example.com/d", []⟩],
      ⟨4, 4⟩⟩ : CrawlResult).stats.pagesScraped
      = (⟨[⟨"https://example.com/", exampleLinks⟩, ⟨"https://example.com/b", []⟩,
          ⟨"https://example.com/c", []⟩, ⟨"https://example.com/d", []⟩],
        ⟨4, 4⟩⟩ : CrawlResult).pages.length
    ∧ (⟨[⟨"https://example.com/", exampleLinks⟩, ⟨"https://example.com/b", []⟩,
          ⟨"https://example.com/c", []⟩, ⟨"https://example.com/d", []⟩],
        ⟨4, 4⟩⟩ : CrawlResult).pages
      = (crawlLoop filterLinks exampleFetch 10 2 (String.mk "example.com".data) false
          (crawlFuel 10) ⟨[], [⟨"https://example.com/", 0⟩], [], [], [], 0⟩).results
    ∧ (crawlLoop filterLinks exampleFetch 10 2 (String.mk "example.com".data) false
          (crawlFuel 10)
          ⟨[], [⟨"https://example.com/", 0⟩], [], [], [], 0⟩).pageDepths.length
      = (⟨[⟨"https://example.com/", exampleLinks⟩, ⟨"https://example.com/b", []⟩,
          ⟨"https://example.com/c", []⟩, ⟨"https://example.com/d", []⟩],
        ⟨4, 4⟩⟩ : CrawlResult).pages.length
    ∧ (⟨[⟨"https://example.com/", exampleLinks⟩, ⟨"https://example.com/b", []⟩,
          ⟨"https://example.com/c", []⟩, ⟨"https://example.com/d", []⟩],
        ⟨4, 4⟩⟩ : CrawlResult).stats.linksDiscovered
      = expansionSum filterLinks 2 (String.mk "example.com".data) false
          (⟨[⟨"https://example.com/", exampleLinks⟩, ⟨"https://example.com/b", []⟩,
            ⟨"https://example.com/c", []⟩, ⟨"https://example.com/d", []⟩],
          ⟨4, 4⟩⟩ : CrawlResult).pages
          (crawlLoop filterLinks exampleFetch 10 2 (String.mk "example.com".data) false
            (crawlFuel 10) ⟨[], [⟨"https://example.com/", 0⟩], [], [], [], 0⟩).pageDepths :=
  c8_stats_consistency.1 exampleFetch "https://example.com/" optsDefault
    ⟨[⟨"https://example.com/", exampleLinks⟩, ⟨"https://example.com/b", []⟩,
      ⟨"https://example.com/c", []⟩, ⟨"https://example.com/d", []⟩], ⟨4, 4⟩⟩
    ⟨"https".data, "example.com".data, [], ['/'], [], []⟩ (by decide) (by decide)

/-- C3: on the spec's eight-link example against current URL
`https://example.com/start` and base domain `example.com`, both revisions
return exactly the three in-scope URLs (plus the `blog.` subdomain link when
`allowSubdomains` is set): `www.` is treated as the bare domain, the foreign
domain, fragment, `mailto:` and `.png` links are dropped, and the relative
link is resolved against the current URL. -/
theorem c3_filter_scope_precision :
    filterLinks ["https://example.com/a", "https://www.example.com/b",
        "https://blog.example.com/c", "https://other.com/d", "/relative", "#frag",
        "mailto:x@y.com", "https://example.com/img.png"]
      "https://example.com/start" "example.com" false
      = ["https://example.com/a", "https://www.example.com/b",
        "https://example.com/relative"]
    ∧ filterLinks ["https://example.com/a", "https://www.example.com/b",
        "https://blog.example.com/c", "https://other.com/d", "/relative", "#frag",
        "mailto:x@y.com", "https://example.com/img.png"]
      "https://example.com/start" "example.com" true
      = ["https://example.com/a", "https://www.example.com/b",
        "https://blog.example.com/c", "https://example.com/relative"]
    ∧ filterLinks2 ["https://example.com/a", "https://www.example.com/b",
        "https://blog.example.com/c", "https://other.com/d", "/relative", "#frag",
        "mailto:x@y.com", "https://example.com/img.png"]
      "https://example.com/start" "example.com" false
      = ["https://example.com/a", "https://www.example.com/b",
        "https://example.com/relative"]
    ∧ filterLinks2 ["https://example.com/a", "https://www.example.com/b",
        "https://blog.example.com/c", "https://other.com/d", "/relative", "#frag",
        "mailto:x@y.com", "https://example.com/img.png"]
      "https://example.com/start" "example.com" true
      = ["https://example.com/a", "https://www.example.com/b",
        "https://blog.example.com/c", "https://example.com/relative"] := by
  refine ⟨by decide, by decide, by decide, by decide⟩


theorem insertUnique_mem (acc : List String) (x u : String) (h : u ∈ insertUnique acc x) :
    u ∈ acc ∨ u = x := by
  unfold insertUnique at h
  by_cases hx : x ∈ acc
  · rw [if_pos hx] at h
    exact Or.inl h
  · rw [if_neg hx] at h
    rcases List.mem_append.mp h with h | h
    · exact Or.inl h
    · exact Or.inr (List.mem_singleton.mp h)

theorem insertUnique_nodup (acc : List String) (x : String) (h : acc.Nodup) :
    (insertUnique acc x).Nodup := by
  unfold insertUnique
  by_cases hx : x ∈ acc
  · rw [if_pos hx]
    exact h
  · rw [if_neg hx]
    rw [List.nodup_append]
    refine ⟨h, List.nodup_singleton x, ?_⟩
    intro a ha hax
    rw [List.mem_singleton] at hax
    exact hx (hax ▸ ha)

/-- A property that each fold step can only add truthfully holds of every
element of the fold's result. -/
theorem foldl_mem_invariant {α β : Type} (f : List β → α → List β) (P : β → Prop)
    (hf : ∀ acc a x, (∀ u ∈ acc, P u) → x ∈ f acc a → P x) :
    ∀ (l : List α) (acc : List β), (∀ u ∈ acc, P u) → ∀ x ∈ l.foldl f acc, P x := by
  intro l
  induction l with
  | nil =>
    intro acc hacc x hx
    exact hacc x hx
  | cons a as ih =>
    intro acc hacc x hx
    rw [List.foldl_cons] at hx
    exact ih (f acc a) (fun u hu => hf acc a u hacc hu) x hx

/-- A property of the accumulator preserved by each fold step holds of the
fold's result. -/
theorem foldl_preserve {α β : Type} (f : List β → α → List β) (P : List β → Prop)
    (hf : ∀ acc a, P acc → P (f acc a)) :
    ∀ (l : List α) (acc : List β), P acc → P (l.foldl f acc) := by
  intro l
  induction l with
  | nil =>
    intro acc hacc
    exact hacc
  | cons a as ih =>
    intro acc hacc
    rw [List.foldl_cons]
    exact ih (f acc a) (hf acc a hacc)

/-- Every URL the first-revision filter returns is the serialization of a
parsed URL whose lowercased pathname ends in none of the four rejected asset
extensions. -/
theorem filterLinks_sound (rawLinks : List String) (currentUrl baseDomain : String)
    (allowSubdomains : Bool) :
    ∀ u ∈ filterLinks rawLinks currentUrl baseDomain allowSubdomains,
      ∃ obj : Url, parseUrlData u.data none = some obj
        ∧ endsWithC (obj.path.map Char.toLower) ".png".data = false
        ∧ endsWithC (obj.path.map Char.toLower) ".jpg".data = false
        ∧ endsWithC (obj.path.map Char.toLower) ".pdf".data = false
        ∧ endsWithC (obj.path.map Char.toLower) ".zip".data = false := by
  unfold filterLinks
  intro u hu
  refine foldl_mem_invariant _
    (fun v => ∃ obj : Url, parseUrlData v.data none = some obj
      ∧ endsWithC (obj.path.map Char.toLower) ".png".data = false
      ∧ endsWithC (obj.path.map Char.toLower) ".jpg".data = false
      ∧ endsWithC (obj.path.map Char.toLower) ".pdf".data = false
      ∧ endsWithC (obj.path.map Char.toLower) ".zip".data = false)
    ?_ rawLinks [] (by simp) u hu
  intro acc href x hacc hx
  dsimp only at hx
  split at hx
  · exact hacc x hx
  · cases hpb : parseWithBase href.data currentUrl.data with
    | none =>
      rw [hpb] at hx
      exact hacc x hx
    | some u1 =>
      rw [hpb] at hx
      dsimp only at hx
      cases hob : parseUrlData u1.hrefData none with
      | none =>
        rw [hob] at hx
        exact hacc x hx
      | some urlObj =>
        rw [hob] at hx
        dsimp only at hx
        split at hx
        · split at hx
          · rcases insertUnique_mem acc _ x hx with hxa | rfl
            · exact hacc x hxa
            · refine ⟨urlObj, hob, ?_, ?_, ?_, ?_⟩ <;> simp_all
          · exact hacc x hx
        · exact hacc x hx


/-- Every URL the second-revision filter returns is the query- and
fragment-free normalization `origin + pathname` (trailing slash stripped) of
a parsed URL, and ends in none of `.png`, `.jpg`, `.pdf`. -/
theorem filterLinks2_sound (rawLinks : List String) (currentUrl baseDomain : String)
    (allowSubdomains : Bool) :
    ∀ u ∈ filterLinks2 rawLinks currentUrl baseDomain allowSubdomains,
      ∃ (l : List Char) (obj : Url), parseUrlData l none = some obj
        ∧ u.data = normalizeUrl2 obj
        ∧ endsWithC u.data ".png".data = false
        ∧ endsWithC u.data ".jpg".data = false
        ∧ endsWithC u.data ".pdf".data = false := by
  unfold filterLinks2
  intro u hu
  refine foldl_mem_invariant _
    (fun v => ∃ (l : List Char) (obj : Url), parseUrlData l none = some obj
      ∧ v.data = normalizeUrl2 obj
      ∧ endsWithC v.data ".png".data = false
      ∧ endsWithC v.data ".jpg".data = false
      ∧ endsWithC v.data ".pdf".data = false)
    ?_ rawLinks [] (by simp) u hu
  intro acc href x hacc hx
  dsimp only at hx
  split at hx
  · exact hacc x hx
  · cases hpb : parseWithBase href.data currentUrl.data with
    | none =>
      rw [hpb] at hx
      exact hacc x hx
    | some u1 =>
      rw [hpb] at hx
      dsimp only at hx
      cases hob : parseUrlData u1.hrefData none with
      | none =>
        rw [hob] at hx
        exact hacc x hx
      | some urlObj =>
        rw [hob] at hx
        dsimp only at hx
        split at hx
        · split at hx
          · rcases insertUnique_mem acc _ x hx with hxa | rfl
            · exact hacc x hxa
            · refine ⟨u1.hrefData, urlObj, hob, rfl, ?_, ?_, ?_⟩ <;> simp_all
          · exact hacc x hx
        · exact hacc x hx

/-- The second-revision filter's output list has no duplicates: equal
normalized URLs collapse into one entry. -/
theorem filterLinks2_nodup (rawLinks : List String) (currentUrl baseDomain : String)
    (allowSubdomains : Bool) :
    (filterLinks2 rawLinks currentUrl baseDomain allowSubdomains).Nodup := by
  unfold filterLinks2
  refine foldl_preserve _ List.Nodup ?_ rawLinks [] List.nodup_nil
  intro acc href hacc
  dsimp only
  split
  · exact hacc
  · cases hpb : parseWithBase href.data currentUrl.data with
    | none => exact hacc
    | some u1 =>
      dsimp only
      cases hob : parseUrlData u1.hrefData none with
      | none => exact hacc
      | some urlObj =>
        dsimp only
        split
        · split
          · exact insertUnique_nodup acc _ hacc
          · exact hacc
        · exact hacc


theorem validScheme_no_qmark (sch : List Char) (h : validScheme sch = true) :
    ∀ c ∈ sch, c ≠ '?' := by
  cases sch with
  | nil => exact fun c hc => absurd hc (List.not_mem_nil c)
  | cons a as =>
    intro c hc
    rw [validScheme, Bool.and_eq_true] at h
    rcases List.mem_cons.mp hc with rfl | hc
    · intro he
      rw [he] at h
      exact absurd h.1 (by decide)
    · have hv := List.all_eq_true.mp h.2 c hc
      intro he
      rw [he] at hv
      exact absurd hv (by decide)

theorem schemeSplit_inv (l sch rest : List Char) (h : schemeSplit l = some (sch, rest)) :
    sch = l.takeWhile (· ≠ ':') ∧ validScheme sch = true := by
  unfold schemeSplit at h
  split at h
  · split at h
    · rcases Prod.mk.injEq .. ▸ Option.some.inj h with ⟨h1, h2⟩
      exact ⟨h1.symm, h1 ▸ (by assumption)⟩
    · cases h
  · cases h

theorem parseHier_inv (sch rest : List Char) (u : Url) (h : parseHier sch rest = some u) :
    u.scheme = sch
    ∧ u.host = (afterLastAt (rest.takeWhile authChar)).takeWhile (· ≠ ':')
    ∧ (u.port = []
        ∨ u.port = (afterLastAt (rest.takeWhile authChar)).dropWhile (· ≠ ':'))
    ∧ u.path = (splitPathQueryFrag (rest.dropWhile authChar)).1 := by
  unfold parseHier at h
  dsimp only at h
  generalize hhp : afterLastAt (List.takeWhile authChar rest) = hp at h ⊢
  by_cases h1 : List.takeWhile (fun x => decide (x ≠ ':')) hp = []
  · rw [if_pos h1] at h
    cases h
  · rw [if_neg h1] at h
    by_cases h2 : List.dropWhile (fun x => decide (x ≠ ':')) hp = [':']
    · rw [if_pos h2] at h
      rw [if_neg (by simp)] at h
      have := Option.some.inj h
      subst this
      exact ⟨rfl, rfl, Or.inl rfl, rfl⟩
    · rw [if_neg h2] at h
      split at h
      · cases h
      · have := Option.some.inj h
        subst this
        exact ⟨rfl, rfl, Or.inr rfl, rfl⟩

theorem parseUrlData_none_inv (l : List Char) (u : Url)
    (h : parseUrlData l none = some u) :
    ∃ sch rest, schemeSplit l = some (sch, rest)
      ∧ parseHier sch (rest.drop 2) = some u := by
  unfold parseUrlData at h
  split at h
  next sch rest hs =>
    split at h
    · exact ⟨sch, rest, hs, h⟩
    · cases h
  next => cases h

/-- The components of an absolute parse contain no `?`: the authority stops
at any of `/?#` and the pathname stops at `?`. -/
theorem parseUrlData_none_no_qmark (l : List Char) (u : Url)
    (h : parseUrlData l none = some u) :
    (∀ c ∈ u.scheme, c ≠ '?') ∧ (∀ c ∈ u.host, c ≠ '?')
      ∧ (∀ c ∈ u.port, c ≠ '?') ∧ (∀ c ∈ u.path, c ≠ '?') := by
  obtain ⟨sch, rest, hs, hh⟩ := parseUrlData_none_inv l u h
  obtain ⟨hsch, hval⟩ := schemeSplit_inv l sch rest hs
  obtain ⟨he1, he2, he3, he4⟩ := parseHier_inv sch (rest.drop 2) u hh
  have hauth : ∀ c ∈ afterLastAt ((rest.drop 2).takeWhile authChar), c ≠ '?' := by
    intro c hc
    have hc2 : c ∈ (rest.drop 2).takeWhile authChar := by
      unfold afterLastAt at hc
      rw [List.mem_reverse] at hc
      have := (List.takeWhile_sublist (fun c => c ≠ '@')).subset hc
      rw [List.mem_reverse] at this
      exact this
    have := List.mem_takeWhile_imp hc2
    simp only [authChar, Bool.and_eq_true, decide_eq_true_eq] at this
    exact this.1.2
  refine ⟨?_, ?_, ?_, ?_⟩
  · rw [he1]
    exact validScheme_no_qmark sch hval
  · rw [he2]
    intro c hc
    exact hauth c ((List.takeWhile_sublist (fun c => c ≠ ':')).subset hc)
  · rcases he3 with he3 | he3 <;> rw [he3]
    · exact fun c hc => absurd hc (List.not_mem_nil c)
    · intro c hc
      exact hauth c ((List.dropWhile_sublist (fun c => c ≠ ':')).subset hc)
  · rw [he4]
    unfold splitPathQueryFrag
    dsimp only
    split
    · intro c hc
      rw [List.mem_singleton] at hc
      rw [hc]
      decide
    · intro c hc
      have := List.mem_takeWhile_imp hc
      simp only [decide_eq_true_eq] at this
      exact this


theorem startsWithC_map (f : Char → Char) (s p : List Char) (h : startsWithC s p = true) :
    startsWithC (s.map f) (p.map f) = true := by
  induction s generalizing p with
  | nil =>
    cases p with
    | nil => rfl
    | cons c cs => cases h
  | cons a as ih =>
    cases p with
    | nil => rfl
    | cons c cs =>
      rw [startsWithC, Bool.and_eq_true] at h
      rw [List.map_cons, List.map_cons, startsWithC, Bool.and_eq_true]
      exact ⟨beq_iff_eq.mpr (by rw [beq_iff_eq.mp h.1]), ih cs h.2⟩

theorem endsWithC_map (f : Char → Char) (s t : List Char) (h : endsWithC s t = true) :
    endsWithC (s.map f) (t.map f) = true := by
  unfold endsWithC at h ⊢
  rw [← List.map_reverse f s, ← List.map_reverse f t]
  exact startsWithC_map f s.reverse t.reverse h

/-- C6 counterexample: the second-revision filter returns a link whose
resolved path ends in `.zip` — its extension check omits `.zip`. -/
theorem c6_zip_passes_second_revision :
    filterLinks2 ["https://example.com/file.zip"] "https://example.com/" "example.com" false
      = ["https://example.com/file.zip"]
    ∧ (parseUrlData "https://example.com/file.zip".data none).map Url.path
      = some "/file.zip".data
    ∧ endsWithC "/file.zip".data ".zip".data = true :=
  ⟨by decide, by decide, by decide⟩

/-- C6 (amended): the first-revision filter rejects every link whose
resolved path ends in `.png`, `.jpg`, `.pdf` or `.zip` (the check is on the
lowercased path, so this covers the literal extensions); the second-revision
filter only guarantees that no returned normalized URL ends in `.png`,
`.jpg` or `.pdf` — `.zip` is not filtered there. -/
theorem c6_asset_extensions_filtered :
    (∀ (rawLinks : List String) (currentUrl baseDomain : String) (allowSubdomains : Bool),
      ∀ u ∈ filterLinks rawLinks currentUrl baseDomain allowSubdomains,
      ∃ obj : Url, parseUrlData u.data none = some obj
        ∧ endsWithC obj.path ".png".data = false
        ∧ endsWithC obj.path ".jpg".data = false
        ∧ endsWithC obj.path ".pdf".data = false
        ∧ endsWithC obj.path ".zip".data = false) ∧
    (∀ (rawLinks : List String) (currentUrl baseDomain : String) (allowSubdomains : Bool),
      ∀ u ∈ filterLinks2 rawLinks currentUrl baseDomain allowSubdomains,
      endsWithC u.data ".png".data = false
        ∧ endsWithC u.data ".jpg".data = false
        ∧ endsWithC u.data ".pdf".data = false) := by
  constructor
  · intro rawLinks currentUrl baseDomain allowSubdomains u hu
    obtain ⟨obj, hobj, h1, h2, h3, h4⟩ :=
      filterLinks_sound rawLinks currentUrl baseDomain allowSubdomains u hu
    refine ⟨obj, hobj, ?_, ?_, ?_, ?_⟩
    · cases hc : endsWithC obj.path ".png".data
      · rfl
      · have hm := endsWithC_map Char.toLower obj.path ".png".data hc
        rw [show ".png".data.map Char.toLower = ".png".data from by decide] at hm
        simp [h1] at hm
    · cases hc : endsWithC obj.path ".jpg".data
      · rfl
      · have hm := endsWithC_map Char.toLower obj.path ".jpg".data hc
        rw [show ".jpg".data.map Char.toLower = ".jpg".data from by decide] at hm
        simp [h2] at hm
    · cases hc : endsWithC obj.path ".pdf".data
      · rfl
      · have hm := endsWithC_map Char.toLower obj.path ".pdf".data hc
        rw [show ".pdf".data.map Char.toLower = ".pdf".data from by decide] at hm
        simp [h3] at hm
    · cases hc : endsWithC obj.path ".zip".data
      · rfl
      · have hm := endsWithC_map Char.toLower obj.path ".zip".data hc
        rw [show ".zip".data.map Char.toLower = ".zip".data from by decide] at hm
        simp [h4] at hm
  · intro rawLinks currentUrl baseDomain allowSubdomains u hu
    obtain ⟨l, obj, hobj, heq, h1, h2, h3⟩ :=
      filterLinks2_sound rawLinks currentUrl baseDomain allowSubdomains u hu
    exact ⟨h1, h2, h3⟩

theorem c6_asset_extensions_filtered_witness :
    ∃ obj : Url, parseUrlData ("https://example.com/a" : String).data none = some obj
      ∧ endsWithC obj.path ".png".data = false
      ∧ endsWithC obj.path ".jpg".data = false
      ∧ endsWithC obj.path ".pdf".data = false
      ∧ endsWithC obj.path ".zip".data = false :=
  c6_asset_extensions_filtered.1 ["https://example.com/a"] "https://example.com/"
    "example.com" false "https://example.com/a" (by decide)


/-- C10: every URL the second-revision filter returns is the normalization
`origin + pathname` (trailing slash removed) of a parsed link — queries and
fragments are discarded, so no returned URL contains a `?`; the
normalization ignores query and fragment, the output is duplicate-free, and
on a concrete pair differing only in query and fragment both collapse to one
returned URL. -/
theorem c10_second_revision_normalization :
    (∀ (rawLinks : List String) (currentUrl baseDomain : String) (allowSubdomains : Bool),
      ∀ u ∈ filterLinks2 rawLinks currentUrl baseDomain allowSubdomains,
      (∃ obj : Url, u.data = normalizeUrl2 obj) ∧ ∀ c ∈ u.data, c ≠ '?') ∧
    (∀ o1 o2 : Url, o1.scheme = o2.scheme → o1.host = o2.host → o1.port = o2.port →
      o1.path = o2.path → normalizeUrl2 o1 = normalizeUrl2 o2) ∧
    (∀ (rawLinks : List String) (currentUrl baseDomain : String) (allowSubdomains : Bool),
      (filterLinks2 rawLinks currentUrl baseDomain allowSubdomains).Nodup) ∧
    filterLinks2 ["https://example.com/a?x=1", "https://example.com/a#top"]
      "https://example.com/" "example.com" false = ["https://example.com/a"] := by
  refine ⟨?_, ?_, filterLinks2_nodup, by decide⟩
  · intro rawLinks currentUrl baseDomain allowSubdomains u hu
    obtain ⟨l, obj, hobj, heq, h1, h2, h3⟩ :=
      filterLinks2_sound rawLinks currentUrl baseDomain allowSubdomains u hu
    refine ⟨⟨obj, heq⟩, ?_⟩
    obtain ⟨hq1, hq2, hq3, hq4⟩ := parseUrlData_none_no_qmark l obj hobj
    intro c hc
    rw [heq] at hc
    unfold normalizeUrl2 Url.originData at hc
    rcases List.mem_append.mp hc with hc | hc
    · rcases List.mem_append.mp hc with hc | hc
      · rcases List.mem_append.mp hc with hc | hc
        · rcases List.mem_append.mp hc with hc | hc
          · exact hq1 c hc
          · rcases List.mem_cons.mp hc with rfl | hc
            · decide
            · rcases List.mem_cons.mp hc with rfl | hc
              · decide
              · rw [List.mem_singleton] at hc
                rw [hc]
                decide
        · exact hq2 c hc
      · exact hq3 c hc
    · refine hq4 c ?_
      unfold stripTrailingSlash at hc
      split at hc
      · exact (List.dropLast_sublist obj.path).subset hc
      · exact hc
  · intro o1 o2 h1 h2 h3 h4
    unfold normalizeUrl2 Url.originData
    rw [h1, h2, h3, h4]

theorem c10_second_revision_normalization_witness :
    (∃ obj : Url, ("https://example.com/a" : String).data = normalizeUrl2 obj)
      ∧ ∀ c ∈ ("https://example.com/a" : String).data, c ≠ '?' :=
  c10_second_revision_normalization.1
    ["https://example.com/a?x=1", "https://example.com/a#top"] "https://example.com/"
    "example.com" false "https://example.com/a" (by decide)

end DanritReader
